import Mathlib

/-!
Verification development for the in-memory datastore core (package `memory`
plus the `dscache` fetch planner).

The definitions below are a shallow embedding of the Go source:

* `src/impl/memory/datastore_data.go` — `dataStoreData`, `txnDataStoreData`,
  `curVersion`, `incrementLocked`, `allocateIDs`, `putMulti`, `getMulti`,
  `delMulti`, `writeMutation`, `canApplyTxn`, and the dscache `makeFetchPlan`.
* The query reducer (`reduce`, cursor decoding and clamping) is not part of
  the sources at hand (only its tests are), so it is modelled from the spec;
  every such definition carries a doc comment beginning "Modelled from the
  spec:".

Modelling conventions:

* The byte-string serialization of keys and property maps (package
  `serialize`) is treated as the external codec the spec describes: injective
  and order-compatible.  Collections therefore map keys (as `DSKey` values)
  directly to decoded `PropertyMap`s; `rpm` is the identity and its error
  branch cannot occur.  Where the reducer manipulates raw index bytes, a
  concrete order-compatible, self-delimiting codec is supplied.
* Go panics (`memoryCorruption`, bad `amt` in `incrementLocked`) are
  modelled as `Option.none` propagated outward.
* Multi-key callbacks are modelled as the collected list of per-item results
  handed to the callback, in invocation order (no caller in any claim stops
  early via `ds.Stop`).
* `updateIndexes` maintains only `idx:*` collections, which no claim
  observes; its calls are noted by comments and otherwise omitted.
-/

namespace Gae

/-- A single key path token: (kind, stringID, intID), as in `ds.KeyTok`. -/
abbrev PathTok := String × String × Int

/-- `ds.Key`: (appID, namespace, path), path ordered ancestor-first. -/
structure DSKey where
  appID : String
  nsp : String
  path : List PathTok
deriving DecidableEq, Repr

/-- `Key.Root()`: the key holding only the first path token. -/
def DSKey.root (k : DSKey) : DSKey :=
  { k with path := k.path.take 1 }

/-- `Key.Kind()`: the kind of the last path token. -/
def DSKey.kind (k : DSKey) : String :=
  match k.path.getLast? with
  | some t => t.1
  | none => ""

/-- `Key.Parent()`: drop the last path token; `nil` for a root key. -/
def DSKey.parent (k : DSKey) : Option DSKey :=
  match k.path with
  | [] => none
  | [_] => none
  | _ => some { k with path := k.path.dropLast }

/-- `Key.Incomplete()`: last token has StringID == "" and IntID == 0. -/
def DSKey.incomplete (k : DSKey) : Bool :=
  match k.path.getLast? with
  | some (_, sid, iid) => sid = "" && iid = 0
  | none => false

/-- Property values; only the integer case is ever inspected by the code
under verification (`__version__` handling); keys appear in cursors. -/
inductive PropVal
  | int (i : Int)
  | key (k : DSKey)
deriving DecidableEq, Repr

/-- `ds.PropertyMap`: property name to ordered values.  Property metadata
(indexed-ness) never matters to any claim and is not carried. -/
abbrev PropertyMap := List (String × List PropVal)

def pmLookup : PropertyMap → String → Option (List PropVal)
  | [], _ => none
  | (n, vs) :: rest, s => if n = s then some vs else pmLookup rest s

/-- A `memCollection`: keys (decoded, see the codec convention) to stored
property maps. -/
abbrev MemCollection := List (DSKey × PropertyMap)

def collGet : MemCollection → DSKey → Option PropertyMap
  | [], _ => none
  | (a, v) :: rest, k => if a = k then some v else collGet rest k

def collSet : MemCollection → DSKey → PropertyMap → MemCollection
  | [], k, v => [(k, v)]
  | (a, w) :: rest, k, v =>
    if a = k then (k, v) :: rest else (a, w) :: collSet rest k v

def collDel : MemCollection → DSKey → MemCollection
  | [], _ => []
  | (a, w) :: rest, k =>
    if a = k then collDel rest k else (a, w) :: collDel rest k

/-- A `memStore`: named collections.  `Snapshot()` is value copying here, so
snapshot immutability is by construction. -/
abbrev MemStore := List (String × MemCollection)

instance : DecidableEq PropertyMap := fun a b => List.hasDecEq a b

instance : DecidableEq MemCollection := fun a b => List.hasDecEq a b

instance : DecidableEq MemStore := fun a b => List.hasDecEq a b

instance {ε α : Type} [DecidableEq ε] [DecidableEq α] : DecidableEq (Except ε α) := fun a b =>
  match a, b with
  | .error x, .error y =>
    if h : x = y then .isTrue (by rw [h]) else .isFalse (by simp [h])
  | .error _, .ok _ => .isFalse (by simp)
  | .ok _, .error _ => .isFalse (by simp)
  | .ok x, .ok y =>
    if h : x = y then .isTrue (by rw [h]) else .isFalse (by simp [h])

def storeGet : MemStore → String → Option MemCollection
  | [], _ => none
  | (n, c) :: rest, s => if n = s then some c else storeGet rest s

def storeSet : MemStore → String → MemCollection → MemStore
  | [], s, c => [(s, c)]
  | (n, d) :: rest, s, c =>
    if n = s then (s, c) :: rest else (n, d) :: storeSet rest s c

/-- `groupMetaKey`: `NewKey("", "", "__entity_group__", "", 1, key.Root())`. -/
def groupMetaKey (key : DSKey) : DSKey :=
  ⟨"", "", key.root.path ++ [("__entity_group__", "", 1)]⟩

/-- `groupIDsKey`: `NewKey("", "", "__entity_group_ids__", "", 1, key.Root())`. -/
def groupIDsKey (key : DSKey) : DSKey :=
  ⟨"", "", key.root.path ++ [("__entity_group_ids__", "", 1)]⟩

/-- `rootIDsKey`: `NewKey("", "", "__entity_root_ids__", kind, 0, nil)`. -/
def rootIDsKey (kind : String) : DSKey :=
  ⟨"", "", [("__entity_root_ids__", kind, 0)]⟩

/-- `curVersion`: read the `__version__` int of `key` in `ents`; 0 when the
collection or row is absent.  A row whose map lacks a leading int
`__version__` hits `memoryCorruption` (a panic), modelled as `none`. -/
def curVersion (ents : Option MemCollection) (key : DSKey) : Option Int :=
  match ents with
  | none => some 0
  | some c =>
    match collGet c key with
    | none => some 0
    | some pm =>
      match pmLookup pm "__version__" with
      | some (PropVal.int i :: _) => some i
      | _ => none

/-- `incrementLocked`: bump the `__version__` row at `key` by `amt`,
returning the first newly allocated value.  `amt <= 0` panics (`none`). -/
def incrementLocked (ents : MemCollection) (key : DSKey) (amt : Int) :
    Option (Int × MemCollection) :=
  if amt ≤ 0 then none
  else
    match curVersion (some ents) key with
    | none => none
    | some v =>
      let ret := v + 1
      some (ret, collSet ents key [("__version__", [PropVal.int (ret + (amt - 1))])])

/-- `dataStoreData` (the fields locks cannot shallow-embed are dropped;
`snap = none` is the "always consistent" state). -/
structure DataStoreData where
  aid : String
  head : MemStore
  snap : Option MemStore
  txnFakeRetry : Nat
  autoIndex : Bool
  disableSpecialEntities : Bool
deriving DecidableEq, Repr

/-- `newDataStoreData`. -/
def newDataStoreData (aid : String) : DataStoreData :=
  { aid := aid, head := [], snap := some [], txnFakeRetry := 0,
    autoIndex := false, disableSpecialEntities := false }

/-- `setDisableSpecialEntities`: note the Go body ignores its argument and
always stores `true`. -/
def setDisableSpecialEntities (d : DataStoreData) (_enabled : Bool) : DataStoreData :=
  { d with disableSpecialEntities := true }

/-- `mutableEntsLocked`: get or create the `ents:<ns>` collection; returns
the collection together with the (possibly extended) store. -/
def mutableEntsLocked (s : MemStore) (ns : String) : MemCollection × MemStore :=
  match storeGet s ("ents:" ++ ns) with
  | some c => (c, s)
  | none => ([], storeSet s ("ents:" ++ ns) [])

/-- `allocateIDsLocked`: fails when special entities are disabled; otherwise
bumps the per-kind root-ids row (root keys) or per-parent group-ids row. -/
def allocateIDsLocked (disableSE : Bool) (ents : MemCollection)
    (incomplete : DSKey) (n : Int) : Option (Except String (Int × MemCollection)) :=
  if disableSE then
    some (.error "disableSpecialEntities is true so allocateIDs is disabled")
  else
    let idKey :=
      match incomplete.parent with
      | none => rootIDsKey incomplete.kind
      | some _ => groupIDsKey incomplete
    match incrementLocked ents idKey n with
    | none => none
    | some r => some (.ok r)

/-- `allocateIDs`: the locked wrapper; the `ents:<ns>` collection creation
and id-row bump persist in the returned store. -/
def allocateIDs (d : DataStoreData) (incomplete : DSKey) (n : Int) :
    Option (DataStoreData × Except String Int) :=
  let ents := (mutableEntsLocked d.head incomplete.nsp).1
  let head1 := (mutableEntsLocked d.head incomplete.nsp).2
  match allocateIDsLocked d.disableSpecialEntities ents incomplete n with
  | none => none
  | some (.error e) => some ({ d with head := head1 }, .error e)
  | some (.ok (id, ents1)) =>
    some ({ d with head := storeSet head1 ("ents:" ++ incomplete.nsp) ents1 }, .ok id)

/-- `fixKeyLocked`: complete an incomplete key by allocating one id; the
error branch hands back the original key (done at the call sites here). -/
def fixKeyLocked (disableSE : Bool) (ents : MemCollection) (key : DSKey) :
    Option (Except String (DSKey × MemCollection)) :=
  if key.incomplete then
    match allocateIDsLocked disableSE ents key 1 with
    | none => none
    | some (.error e) => some (.error e)
    | some (.ok (id, ents1)) =>
      some (.ok (⟨key.appID, key.nsp, key.path.dropLast ++ [(key.kind, "", id)]⟩, ents1))
  else some (.ok (key, ents))

/-- Namespace of a multi-key batch: Go indexes `keys[0]` (callers guarantee
non-empty batches). -/
def nsOf : List DSKey → String
  | [] => ""
  | k :: _ => k.nsp

/-- One iteration of the non-transactional `putMulti` loop body: fix the
key, bump the group-metadata version (unless disabled), then store the map.
(`updateIndexes` touches only `idx:*` collections and is omitted; the `rpm`
of the old value is the identity here and cannot fail.) -/
def putOne (d : DataStoreData) (ns : String) (k : DSKey) (pm : PropertyMap) :
    Option (DataStoreData × (DSKey × Option String)) :=
  let ents := (mutableEntsLocked d.head ns).1
  let head1 := (mutableEntsLocked d.head ns).2
  match fixKeyLocked d.disableSpecialEntities ents k with
  | none => none
  | some (.error e) => some ({ d with head := head1 }, (k, some e))
  | some (.ok (k', ents1)) =>
    match (if d.disableSpecialEntities then some ((0 : Int), ents1)
           else incrementLocked ents1 (groupMetaKey k') 1) with
    | none => none
    | some (_, ents2) =>
      let ents3 := collSet ents2 k' pm
      some ({ d with head := storeSet head1 ("ents:" ++ ns) ents3 }, (k', none))

def putMultiAux (ns : String) :
    DataStoreData → List (DSKey × PropertyMap) →
    Option (DataStoreData × List (DSKey × Option String))
  | d, [] => some (d, [])
  | d, (k, v) :: rest =>
    match putOne d ns k v with
    | none => none
    | some (d', cb) =>
      match putMultiAux ns d' rest with
      | none => none
      | some (d'', cbs) => some (d'', cb :: cbs)

/-- `putMulti` (non-transactional): per-key callback results collected in
order; `vals[i].Save(false)` is the identity under the codec convention. -/
def putMulti (d : DataStoreData) (keys : List DSKey) (vals : List PropertyMap) :
    Option (DataStoreData × List (DSKey × Option String)) :=
  putMultiAux (nsOf keys) d (keys.zip vals)

/-- `getMulti` (non-transactional): reads through a fresh head snapshot;
`none` per key is `ds.ErrNoSuchEntity`. -/
def getMulti (d : DataStoreData) (keys : List DSKey) : List (Option PropertyMap) :=
  let coll := storeGet d.head ("ents:" ++ nsOf keys)
  keys.map fun k => coll.bind (fun c => collGet c k)

/-- One iteration of the `delMulti` loop body: bump the group-metadata
version (unless disabled), delete the row if present.  The only per-key
error the Go body can return is an `rpm` failure, impossible here, so the
per-key result is always `none`. -/
def delOne (d : DataStoreData) (ns : String) (k : DSKey) :
    Option (DataStoreData × Option String) :=
  let ents := (mutableEntsLocked d.head ns).1
  let head1 := (mutableEntsLocked d.head ns).2
  match (if d.disableSpecialEntities then some ((0 : Int), ents)
         else incrementLocked ents (groupMetaKey k) 1) with
  | none => none
  | some (_, ents1) =>
    let ents2 :=
      match collGet ents1 k with
      | some _ => collDel ents1 k
      | none => ents1
    some ({ d with head := storeSet head1 ("ents:" ++ ns) ents2 }, none)

def delMultiAux (ns : String) :
    DataStoreData → List DSKey → Option (DataStoreData × List (Option String))
  | d, [] => some (d, [])
  | d, k :: rest =>
    match delOne d ns k with
    | none => none
    | some (d', e) =>
      match delMultiAux ns d' rest with
      | none => none
      | some (d'', es) => some (d'', e :: es)

/-- `delMulti`: the `hasEntsInNS` probe calls `mutableEntsLocked`, which
creates the `ents:<ns>` collection when missing and hence never returns nil,
so the per-key loop always runs (its creation side effect is kept). -/
def delMulti (d : DataStoreData) (keys : List DSKey) :
    Option (DataStoreData × List (Option String)) :=
  let ns := nsOf keys
  let d0 := { d with head := (mutableEntsLocked d.head ns).2 }
  delMultiAux ns d0 keys

/-- `txnMutation`: `data = none` denotes a deletion. -/
structure TxnMutation where
  key : DSKey
  data : Option PropertyMap
deriving DecidableEq, Repr

/-- `txnDataStoreData`: the `muts` map is keyed by the serialized root key;
under the injective codec convention the root `DSKey` itself is the map key
(what `canApplyTxn` decodes back out of the raw bytes). -/
structure TxnState where
  isXG : Bool
  snap : MemStore
  muts : List (DSKey × List TxnMutation)
deriving DecidableEq, Repr

def mutsLookup : List (DSKey × List TxnMutation) → DSKey → Option (List TxnMutation)
  | [], _ => none
  | (a, ms) :: rest, k => if a = k then some ms else mutsLookup rest k

def mutsAppend : List (DSKey × List TxnMutation) → DSKey → TxnMutation →
    List (DSKey × List TxnMutation)
  | [], k, m => [(k, [m])]
  | (a, ms) :: rest, k, m =>
    if a = k then (a, ms ++ [m]) :: rest else (a, ms) :: mutsAppend rest k m

/-- `mkTxn`: take the begin snapshot of head; empty group set. -/
def mkTxn (d : DataStoreData) (xg : Bool) : TxnState :=
  { isXG := xg, snap := d.head, muts := [] }

def xgEGLimit : Nat := 25

/-- `writeMutation`: record `key`'s entity-group root; fail when inserting a
new root would exceed 1 (non-XG) or 25 (XG) distinct groups; when `getOnly`
is false additionally append the mutation under that root. -/
def writeMutation (td : TxnState) (getOnly : Bool) (key : DSKey)
    (data : Option PropertyMap) : Except String TxnState :=
  let rk := key.root
  match mutsLookup td.muts rk with
  | some _ =>
    .ok (if getOnly then td else { td with muts := mutsAppend td.muts rk ⟨key, data⟩ })
  | none =>
    let limit := if td.isXG then xgEGLimit else 1
    if td.muts.length + 1 > limit then
      .error (if td.isXG then "operating on too many entity groups in a single transaction"
              else "cross-group transaction need to be explicitly specified (xg=True)")
    else
      let td1 := { td with muts := td.muts ++ [(rk, [])] }
      .ok (if getOnly then td1 else { td1 with muts := mutsAppend td1.muts rk ⟨key, data⟩ })

def isErr {ε α : Type} : Except ε α → Bool
  | .error _ => true
  | .ok _ => false

/-- C2: `writeMutation` errors exactly when the key's entity-group root is
new to the transaction and admitting it would push the number of distinct
groups past 1 (non-XG) / 25 (XG); hence a non-XG transaction fails on the
second distinct group and an XG one on the 26th, and the error message
depends only on the XG flag (the functional model returns no new state on
failure, so the group set is unchanged). -/
theorem writeMutation_entity_group_limit (td : TxnState) (getOnly : Bool)
    (key : DSKey) (data : Option PropertyMap) :
    (isErr (writeMutation td getOnly key data) = true ↔
      (mutsLookup td.muts key.root = none ∧
        td.muts.length + 1 > (if td.isXG then xgEGLimit else 1))) ∧
    (td.isXG = false →
      (isErr (writeMutation td getOnly key data) = true ↔
        (mutsLookup td.muts key.root = none ∧ 1 ≤ td.muts.length))) ∧
    (td.isXG = true →
      (isErr (writeMutation td getOnly key data) = true ↔
        (mutsLookup td.muts key.root = none ∧ 25 ≤ td.muts.length))) ∧
    (∀ m, writeMutation td getOnly key data = .error m →
      m = (if td.isXG then "operating on too many entity groups in a single transaction"
           else "cross-group transaction need to be explicitly specified (xg=True)")) := by
  cases h : mutsLookup td.muts key.root with
  | some ms =>
    have hne : isErr (writeMutation td getOnly key data) = false := by
      cases getOnly <;> simp [writeMutation, h, isErr]
    refine ⟨by simp [hne, h], by intro _; simp [hne, h], by intro _; simp [hne, h], ?_⟩
    intro m hm
    rw [hm] at hne
    simp [isErr] at hne
  | none =>
    by_cases hlim : td.muts.length + 1 > (if td.isXG then xgEGLimit else 1)
    · have hw : writeMutation td getOnly key data =
          .error (if td.isXG then "operating on too many entity groups in a single transaction"
                  else "cross-group transaction need to be explicitly specified (xg=True)") := by
        simp [writeMutation, h, hlim]
      refine ⟨by simp [hw, isErr, h, hlim], ?_, ?_, ?_⟩
      · intro hxg
        rw [hxg] at hlim
        simp only [Bool.false_eq_true, if_false] at hlim
        simp [hw, isErr, h]
        omega
      · intro hxg
        have hlim' : 25 < td.muts.length + 1 := by
          rw [hxg] at hlim; simpa [xgEGLimit] using hlim
        simp [hw, isErr, h]
        omega
      · intro m hm
        rw [hw] at hm
        exact (Except.error.inj hm).symm
    · have hne : isErr (writeMutation td getOnly key data) = false := by
        cases getOnly <;> simp [writeMutation, h, hlim, isErr]
      refine ⟨by simp [hne, h, hlim], ?_, ?_, ?_⟩
      · intro hxg
        rw [hxg] at hlim
        simp only [Bool.false_eq_true, if_false] at hlim
        simp [hne, h]
        exact List.length_eq_zero.mp (by omega)
      · intro hxg
        have hlim' : td.muts.length + 1 ≤ 25 := by
          rw [hxg] at hlim; simpa [xgEGLimit] using hlim
        simp [hne, h]
        omega
      · intro m hm
        rw [hm] at hne
        simp [isErr] at hne

theorem storeGet_storeSet_self (s : MemStore) (n : String) (c : MemCollection) :
    storeGet (storeSet s n c) n = some c := by
  induction s with
  | nil => simp [storeSet, storeGet]
  | cons a rest ih =>
    obtain ⟨m, d⟩ := a
    by_cases h : m = n
    · simp [storeSet, storeGet, h]
    · simp [storeSet, storeGet, h, ih]

theorem collGet_collSet_self (c : MemCollection) (k : DSKey) (v : PropertyMap) :
    collGet (collSet c k v) k = some v := by
  induction c with
  | nil => simp [collSet, collGet]
  | cons a rest ih =>
    obtain ⟨a1, a2⟩ := a
    by_cases h : a1 = k
    · simp [collSet, collGet, h]
    · simp [collSet, collGet, h, ih]

theorem collGet_collSet_ne (c : MemCollection) (k a : DSKey) (v : PropertyMap)
    (h : a ≠ k) : collGet (collSet c k v) a = collGet c a := by
  induction c with
  | nil =>
    simp only [collSet, collGet]
    exact if_neg (fun he => h he.symm)
  | cons p rest ih =>
    obtain ⟨p1, p2⟩ := p
    by_cases hp : p1 = k
    · subst hp
      simp only [collSet, if_pos rfl, collGet]
      rw [if_neg (fun he => h he.symm), if_neg (fun he => h he.symm)]
    · by_cases ha : p1 = a
      · subst ha
        simp [collSet, collGet, hp]
      · simp [collSet, collGet, hp, ha, ih]

/-- Re-running `mutableEntsLocked` on the store it returned is a no-op. -/
theorem mutableEntsLocked_ensure (s : MemStore) (ns : String) :
    mutableEntsLocked (mutableEntsLocked s ns).2 ns =
      ((mutableEntsLocked s ns).1, (mutableEntsLocked s ns).2) := by
  unfold mutableEntsLocked
  cases h : storeGet s ("ents:" ++ ns) with
  | some c => simp [h]
  | none => simp [h, storeGet_storeSet_self]

/-- `curVersion` through the get-or-create collection equals `curVersion`
through the raw lookup (an absent collection reads as version 0 either way). -/
theorem curVersion_mutable (s : MemStore) (ns : String) (key : DSKey) :
    curVersion (some (mutableEntsLocked s ns).1) key =
      curVersion (storeGet s ("ents:" ++ ns)) key := by
  unfold mutableEntsLocked
  cases h : storeGet s ("ents:" ++ ns) with
  | some c => simp [h]
  | none => simp [h, curVersion, collGet]

/-- The per-group loop of `canApplyTxn`: skip read-only groups, compare head
and snapshot `__version__` values for the rest; `none` models a
`memoryCorruption` panic inside `curVersion`. -/
def canApplyTxnAux (head snap : MemStore) :
    List (DSKey × List TxnMutation) → Option Bool
  | [] => some true
  | (k, ms) :: rest =>
    if ms = [] then canApplyTxnAux head snap rest
    else
      match curVersion (storeGet head ("ents:" ++ k.nsp)) (groupMetaKey k),
            curVersion (storeGet snap ("ents:" ++ k.nsp)) (groupMetaKey k) with
      | some vHead, some vSnap =>
        if vHead ≠ vSnap then some false else canApplyTxnAux head snap rest
      | _, _ => none

/-- `dataStoreData.canApplyTxn`: each `muts` map key is the serialized root
key, decoded back to its `DSKey` by the codec round-trip. -/
def canApplyTxn (d : DataStoreData) (txn : TxnState) : Option Bool :=
  canApplyTxnAux d.head txn.snap txn.muts

theorem canApplyTxnAux_iff (head snap : MemStore)
    (l : List (DSKey × List TxnMutation)) (hok : canApplyTxnAux head snap l ≠ none) :
    canApplyTxnAux head snap l = some true ↔
      ∀ p ∈ l, p.2 ≠ [] →
        curVersion (storeGet head ("ents:" ++ p.1.nsp)) (groupMetaKey p.1) =
          curVersion (storeGet snap ("ents:" ++ p.1.nsp)) (groupMetaKey p.1) := by
  induction l with
  | nil => simp [canApplyTxnAux]
  | cons a rest ih =>
    obtain ⟨k, ms⟩ := a
    by_cases hms : ms = []
    · rw [show canApplyTxnAux head snap ((k, ms) :: rest) = canApplyTxnAux head snap rest by
        simp [canApplyTxnAux, hms]] at hok ⊢
      rw [ih hok]
      simp [hms]
    · cases hH : curVersion (storeGet head ("ents:" ++ k.nsp)) (groupMetaKey k) with
      | none =>
        exact absurd (by simp [canApplyTxnAux, hms, hH]) hok
      | some vHead =>
        cases hS : curVersion (storeGet snap ("ents:" ++ k.nsp)) (groupMetaKey k) with
        | none =>
          exact absurd (by simp [canApplyTxnAux, hms, hH, hS]) hok
        | some vSnap =>
          by_cases hv : vHead = vSnap
          · rw [show canApplyTxnAux head snap ((k, ms) :: rest) = canApplyTxnAux head snap rest by
              simp [canApplyTxnAux, hms, hH, hS, hv]] at hok ⊢
            rw [ih hok]
            constructor
            · intro hrest
              intro p hp hpne
              rcases List.mem_cons.mp hp with heq | hmem
              · subst heq
                simp only [hH, hS, hv]
              · exact hrest p hmem hpne
            · intro hall p hp hpne
              exact hall p (List.mem_cons_of_mem _ hp) hpne
          · rw [show canApplyTxnAux head snap ((k, ms) :: rest) = some false by
              simp [canApplyTxnAux, hms, hH, hS, hv]]
            simp only [show (some false = some true) = False by simp, false_iff]
            intro hall
            have := hall (k, ms) (List.mem_cons_self _ _) hms
            rw [hH, hS] at this
            exact hv (Option.some.inj this)

/-- C1: `canApplyTxn` succeeds exactly when, for every entity-group root in
the transaction's `muts` with a non-empty mutation list, the group-metadata
`__version__` in the current head equals the one in the transaction's begin
snapshot; roots recorded with an empty (read-only) mutation list are skipped
and can never make the check fail.  The hypothesis excludes the
`memoryCorruption` panic path. -/
theorem canApplyTxn_version_check (d : DataStoreData) (txn : TxnState)
    (hok : canApplyTxn d txn ≠ none) :
    canApplyTxn d txn = some true ↔
      ∀ p ∈ txn.muts, p.2 ≠ [] →
        curVersion (storeGet d.head ("ents:" ++ p.1.nsp)) (groupMetaKey p.1) =
          curVersion (storeGet txn.snap ("ents:" ++ p.1.nsp)) (groupMetaKey p.1) :=
  canApplyTxnAux_iff d.head txn.snap txn.muts hok

def kW1 : DSKey := ⟨"app", "nsW", [("Kind", "", 1)]⟩

def headW1 : MemStore :=
  [("ents:nsW", [(groupMetaKey kW1, [("__version__", [PropVal.int 4])])])]

def dW1 : DataStoreData :=
  { aid := "app", head := headW1, snap := some headW1, txnFakeRetry := 0,
    autoIndex := false, disableSpecialEntities := false }

def txnW1 : TxnState :=
  { isXG := false, snap := headW1, muts := [(kW1.root, [⟨kW1, none⟩])] }

theorem canApplyTxn_version_check_witness :
    canApplyTxn dW1 txnW1 ≠ none ∧
    (canApplyTxn dW1 txnW1 = some true ↔
      ∀ p ∈ txnW1.muts, p.2 ≠ [] →
        curVersion (storeGet dW1.head ("ents:" ++ p.1.nsp)) (groupMetaKey p.1) =
          curVersion (storeGet txnW1.snap ("ents:" ++ p.1.nsp)) (groupMetaKey p.1)) :=
  ⟨by decide, canApplyTxn_version_check dW1 txnW1 (by decide)⟩

/-- The store after the `ents:<ns>` get-or-create probe — the only head
change the failing calls below leave behind. -/
def withEntsColl (d : DataStoreData) (ns : String) : DataStoreData :=
  { d with head := (mutableEntsLocked d.head ns).2 }

/-- C8: for every starting store (the flag may be `false`) and every boolean
argument `b`, `setDisableSpecialEntities` stores `true` (the argument is
ignored, so there is no way to re-enable); after the call — and likewise on
any store whose flag is already `true` — `allocateIDs` returns the
"allocateIDs is disabled" error, and a `Put` of an incomplete key surfaces
exactly that error through its per-key callback instead of assigning an id
(no entity row is written; only the `ents:<ns>` collection get-or-create
side effect remains). -/
theorem setDisableSpecialEntities_always_true (d : DataStoreData) (b : Bool)
    (k : DSKey) (n : Int) (pm : PropertyMap) :
    (setDisableSpecialEntities d b).disableSpecialEntities = true ∧
    allocateIDs (setDisableSpecialEntities d b) k n =
      some (withEntsColl (setDisableSpecialEntities d b) k.nsp,
        .error "disableSpecialEntities is true so allocateIDs is disabled") ∧
    (d.disableSpecialEntities = true →
      allocateIDs d k n =
        some (withEntsColl d k.nsp,
          .error "disableSpecialEntities is true so allocateIDs is disabled")) ∧
    (k.incomplete = true →
      putMulti (setDisableSpecialEntities d b) [k] [pm] =
        some (withEntsColl (setDisableSpecialEntities d b) k.nsp,
          [(k, some "disableSpecialEntities is true so allocateIDs is disabled")])) ∧
    (d.disableSpecialEntities = true → k.incomplete = true →
      putMulti d [k] [pm] =
        some (withEntsColl d k.nsp,
          [(k, some "disableSpecialEntities is true so allocateIDs is disabled")])) := by
  refine ⟨rfl, ?_, ?_, ?_, ?_⟩
  · simp [allocateIDs, allocateIDsLocked, setDisableSpecialEntities, withEntsColl]
  · intro hflag
    simp [allocateIDs, allocateIDsLocked, hflag, withEntsColl]
  · intro hinc
    simp [putMulti, putMultiAux, putOne, fixKeyLocked, allocateIDsLocked, nsOf,
      setDisableSpecialEntities, hinc, withEntsColl]
  · intro hflag hinc
    simp [putMulti, putMultiAux, putOne, fixKeyLocked, allocateIDsLocked, nsOf,
      hflag, hinc, withEntsColl]

def dW8 : DataStoreData :=
  { aid := "app", head := [], snap := some [], txnFakeRetry := 0,
    autoIndex := false, disableSpecialEntities := false }

def kW8 : DSKey := ⟨"app", "n8", [("Kind", "", 0)]⟩

theorem setDisableSpecialEntities_always_true_witness :
    dW8.disableSpecialEntities = false ∧
    (setDisableSpecialEntities dW8 false).disableSpecialEntities = true ∧
    (setDisableSpecialEntities dW8 true).disableSpecialEntities = true ∧
    allocateIDs (setDisableSpecialEntities dW8 false) kW8 1 =
      some (withEntsColl (setDisableSpecialEntities dW8 false) kW8.nsp,
        .error "disableSpecialEntities is true so allocateIDs is disabled") ∧
    putMulti (setDisableSpecialEntities dW8 false) [kW8] [[]] =
      some (withEntsColl (setDisableSpecialEntities dW8 false) kW8.nsp,
        [(kW8, some "disableSpecialEntities is true so allocateIDs is disabled")]) :=
  ⟨rfl,
   (setDisableSpecialEntities_always_true dW8 false kW8 1 []).1,
   (setDisableSpecialEntities_always_true dW8 true kW8 1 []).1,
   (setDisableSpecialEntities_always_true dW8 false kW8 1 []).2.1,
   (setDisableSpecialEntities_always_true dW8 false kW8 1 []).2.2.2.1 (by decide)⟩

/-- The store `delMulti` leaves behind when deleting a single absent key
(special entities enabled): the only change is the group-metadata
`__version__` row bumped to `v + 1`. -/
def delAbsentResult (d : DataStoreData) (k : DSKey) (v : Int) : DataStoreData :=
  let newEnts := collSet (mutableEntsLocked d.head k.nsp).1 (groupMetaKey k)
    [("__version__", [PropVal.int (v + 1)])]
  { d with head := storeSet (mutableEntsLocked d.head k.nsp).2 ("ents:" ++ k.nsp) newEnts }

/-- C10: non-transactional `delMulti` on a key whose entity is absent still
reports a nil per-key error, leaves the row absent, and (with special
entities enabled) bumps the group-metadata `__version__` by one — which
makes a transaction whose begin snapshot predates the delete fail its
`canApplyTxn` version check on that group.  `hmeta` excludes the degenerate
key that coincides with its own group-metadata key (such reserved-kind keys
are rejected upstream of this layer). -/
theorem delMulti_absent_key_bumps_version (d : DataStoreData) (k : DSKey) (v : Int)
    (hflag : d.disableSpecialEntities = false)
    (hmeta : groupMetaKey k ≠ k)
    (habsent : collGet (mutableEntsLocked d.head k.nsp).1 k = none)
    (hver : curVersion (some (mutableEntsLocked d.head k.nsp).1) (groupMetaKey k) = some v) :
    delMulti d [k] = some (delAbsentResult d k v, [none]) ∧
    (storeGet (delAbsentResult d k v).head ("ents:" ++ k.nsp)).bind
        (fun c => collGet c k) = none ∧
    curVersion (storeGet (delAbsentResult d k v).head ("ents:" ++ k.nsp)) (groupMetaKey k)
      = some (v + 1) ∧
    canApplyTxn (delAbsentResult d k v) ⟨false, d.head, [(k.root, [⟨k, none⟩])]⟩
      = some false := by
  have hens := mutableEntsLocked_ensure d.head k.nsp
  have hinc1 : incrementLocked (mutableEntsLocked d.head k.nsp).1 (groupMetaKey k) 1 =
      some (v + 1, collSet (mutableEntsLocked d.head k.nsp).1 (groupMetaKey k)
        [("__version__", [PropVal.int (v + 1)])]) := by
    simp [incrementLocked, hver]
  have hrun : delMulti d [k] = some (delAbsentResult d k v, [none]) := by
    simp only [delMulti, delMultiAux, delOne, nsOf, hens, hflag, Bool.false_eq_true, if_false,
      hinc1]
    rw [collGet_collSet_ne _ _ _ _ (fun he => hmeta he.symm)]
    simp [habsent, delAbsentResult, hflag]
  have hcoll : storeGet (delAbsentResult d k v).head ("ents:" ++ k.nsp) =
      some (collSet (mutableEntsLocked d.head k.nsp).1 (groupMetaKey k)
        [("__version__", [PropVal.int (v + 1)])]) :=
    storeGet_storeSet_self _ _ _
  refine ⟨hrun, ?_, ?_, ?_⟩
  · rw [hcoll]
    show collGet (collSet (mutableEntsLocked d.head k.nsp).1 (groupMetaKey k)
      [("__version__", [PropVal.int (v + 1)])]) k = none
    rw [collGet_collSet_ne _ _ _ _ (fun he => hmeta he.symm)]
    exact habsent
  · rw [hcoll]
    simp [curVersion, collGet_collSet_self, pmLookup]
  · have hroot : groupMetaKey k.root = groupMetaKey k := by
      simp [groupMetaKey, DSKey.root, List.take_take]
    have hnsp : k.root.nsp = k.nsp := rfl
    simp only [canApplyTxn, canApplyTxnAux, hroot, hnsp]
    rw [hcoll]
    have hv1 : curVersion
        (some (collSet (mutableEntsLocked d.head k.nsp).1 (groupMetaKey k)
          [("__version__", [PropVal.int (v + 1)])])) (groupMetaKey k) = some (v + 1) := by
      simp [curVersion, collGet_collSet_self, pmLookup]
    have hv0 : curVersion (storeGet d.head ("ents:" ++ k.nsp)) (groupMetaKey k) = some v := by
      rw [← curVersion_mutable]
      exact hver
    simp [hv1, hv0]

def dW10 : DataStoreData :=
  { aid := "app", head := [], snap := some [], txnFakeRetry := 0,
    autoIndex := false, disableSpecialEntities := false }

def kW10 : DSKey := ⟨"app", "n10", [("Kind", "", 7)]⟩

theorem delMulti_absent_key_bumps_version_witness :
    delMulti dW10 [kW10] = some (delAbsentResult dW10 kW10 0, [none]) ∧
    (storeGet (delAbsentResult dW10 kW10 0).head ("ents:" ++ kW10.nsp)).bind
        (fun c => collGet c kW10) = none ∧
    curVersion (storeGet (delAbsentResult dW10 kW10 0).head ("ents:" ++ kW10.nsp))
        (groupMetaKey kW10) = some (0 + 1) ∧
    canApplyTxn (delAbsentResult dW10 kW10 0) ⟨false, dW10.head, [(kW10.root, [⟨kW10, none⟩])]⟩
      = some false :=
  delMulti_absent_key_bumps_version dW10 kW10 0 (by decide) (by decide) (by decide) (by decide)

/-- A single-key transactional mutation request, as issued by
`txnDataStoreData.putMulti` / `delMulti` one key at a time. -/
inductive TxnOp
  | put (key : DSKey) (val : PropertyMap)
  | del (key : DSKey)
deriving DecidableEq, Repr

/-- One iteration of `txnDataStoreData.putMulti`: fix the key against the
parent head (ID allocation mutates the parent store), then shadow the write
via `writeMutation`; the parent's entity rows are never touched. -/
def txnPutOne (d : DataStoreData) (td : TxnState) (k : DSKey) (v : PropertyMap) :
    Option (DataStoreData × TxnState × (DSKey × Option String)) :=
  let ns := k.nsp
  let ents := (mutableEntsLocked d.head ns).1
  let head1 := (mutableEntsLocked d.head ns).2
  match fixKeyLocked d.disableSpecialEntities ents k with
  | none => none
  | some (.error e) => some ({ d with head := head1 }, td, (k, some e))
  | some (.ok (k1, ents1)) =>
    let d1 := { d with head := storeSet head1 ("ents:" ++ ns) ents1 }
    match writeMutation td false k1 (some v) with
    | .error e => some (d1, td, (k1, some e))
    | .ok td1 => some (d1, td1, (k1, none))

/-- Apply one transactional op; `.del` is one iteration of
`txnDataStoreData.delMulti` (shadow-only, parent untouched). -/
def applyTxnOp (d : DataStoreData) (td : TxnState) :
    TxnOp → Option (DataStoreData × TxnState × (DSKey × Option String))
  | .put k v => txnPutOne d td k v
  | .del k =>
    match writeMutation td false k none with
    | .error e => some (d, td, (k, some e))
    | .ok td1 => some (d, td1, (k, none))

def applyTxnOps (d : DataStoreData) (td : TxnState) :
    List TxnOp → Option (DataStoreData × TxnState × List (DSKey × Option String))
  | [] => some (d, td, [])
  | op :: rest =>
    match applyTxnOp d td op with
    | none => none
    | some (d1, td1, cb) =>
      match applyTxnOps d1 td1 rest with
      | none => none
      | some (d2, td2, cbs) => some (d2, td2, cb :: cbs)

/-- The group-recording loop at the top of `txnDataStoreData.getMulti`:
`writeMutation(getOnly=true)` per key, stopping at the first error (groups
recorded before the failure persist). -/
def txnRecordGets (td : TxnState) : List DSKey → TxnState × Option String
  | [] => (td, none)
  | k :: rest =>
    match writeMutation td true k none with
    | .error e => (td, some e)
    | .ok td1 => txnRecordGets td1 rest

/-- The read loop of `getMultiInner` over a given store: per key, the stored
map or `none` for `ds.ErrNoSuchEntity` (also when the whole collection is
absent). -/
def snapReads (s : MemStore) (keys : List DSKey) : List (Option PropertyMap) :=
  keys.map fun k => (storeGet s ("ents:" ++ nsOf keys)).bind (fun c => collGet c k)

/-- `txnDataStoreData.getMulti`: record every key's group, then serve all
reads out of the transaction's begin snapshot. -/
def txnGetMulti (td : TxnState) (keys : List DSKey) :
    TxnState × Except String (List (Option PropertyMap)) :=
  match txnRecordGets td keys with
  | (td1, some e) => (td1, .error e)
  | (td1, none) =>
    (td1, .ok (keys.map fun k =>
      (storeGet td1.snap ("ents:" ++ nsOf keys)).bind (fun c => collGet c k)))

theorem writeMutation_snap (td : TxnState) (g : Bool) (k : DSKey)
    (dta : Option PropertyMap) (td' : TxnState)
    (h : writeMutation td g k dta = .ok td') : td'.snap = td.snap := by
  simp only [writeMutation] at h
  cases hl : mutsLookup td.muts k.root with
  | some ms =>
    simp only [hl] at h
    cases g <;> simp at h <;> subst h <;> rfl
  | none =>
    simp only [hl] at h
    by_cases hlim : td.muts.length + 1 > (if td.isXG then xgEGLimit else 1)
    · rw [if_pos hlim] at h
      exact absurd h (by simp)
    · rw [if_neg hlim] at h
      cases g <;> simp at h <;> subst h <;> rfl

theorem txnRecordGets_snap (keys : List DSKey) (td td' : TxnState) (oe : Option String)
    (h : txnRecordGets td keys = (td', oe)) : td'.snap = td.snap := by
  induction keys generalizing td with
  | nil =>
    simp [txnRecordGets] at h
    rw [← h.1]
  | cons k rest ih =>
    unfold txnRecordGets at h
    cases hw : writeMutation td true k none with
    | error e =>
      simp only [hw] at h
      simp at h
      rw [← h.1]
    | ok tdn =>
      simp only [hw] at h
      exact (ih tdn h).trans (writeMutation_snap td true k none tdn hw)

theorem applyTxnOp_snap (d : DataStoreData) (td : TxnState) (op : TxnOp)
    (d1 : DataStoreData) (td1 : TxnState) (cb : DSKey × Option String)
    (h : applyTxnOp d td op = some (d1, td1, cb)) : td1.snap = td.snap := by
  cases op with
  | put k v =>
    simp only [applyTxnOp, txnPutOne] at h
    cases hf : fixKeyLocked d.disableSpecialEntities (mutableEntsLocked d.head k.nsp).1 k with
    | none => simp [hf] at h
    | some r =>
      cases r with
      | error e =>
        simp only [hf] at h
        simp at h
        rw [← h.2.1]
      | ok p =>
        obtain ⟨k1, ents1⟩ := p
        simp only [hf] at h
        cases hw : writeMutation td false k1 (some v) with
        | error e =>
          simp only [hw] at h
          simp at h
          rw [← h.2.1]
        | ok tdn =>
          simp only [hw] at h
          simp at h
          rw [← h.2.1]
          exact writeMutation_snap td false k1 (some v) tdn hw
  | del k =>
    simp only [applyTxnOp] at h
    cases hw : writeMutation td false k none with
    | error e =>
      simp only [hw] at h
      simp at h
      rw [← h.2.1]
    | ok tdn =>
      simp only [hw] at h
      simp at h
      rw [← h.2.1]
      exact writeMutation_snap td false k none tdn hw

theorem applyTxnOps_snap (ops : List TxnOp) (d : DataStoreData) (td : TxnState)
    (d' : DataStoreData) (td' : TxnState) (cbs : List (DSKey × Option String))
    (h : applyTxnOps d td ops = some (d', td', cbs)) : td'.snap = td.snap := by
  induction ops generalizing d td cbs with
  | nil =>
    simp [applyTxnOps] at h
    rw [← h.2.1]
  | cons op rest ih =>
    unfold applyTxnOps at h
    cases hop : applyTxnOp d td op with
    | none => simp [hop] at h
    | some t =>
      obtain ⟨d1, td1, cb⟩ := t
      simp only [hop] at h
      cases hrest : applyTxnOps d1 td1 rest with
      | none => simp [hrest] at h
      | some t2 =>
        obtain ⟨d2, td2, cbs2⟩ := t2
        simp only [hrest] at h
        simp at h
        obtain ⟨hd, ht, hc⟩ := h
        rw [hd, ht] at hrest
        exact (ih d1 td1 cbs2 hrest).trans (applyTxnOp_snap d td op d1 td1 cb hop)

/-- C7: any sequence of puts/deletes inside a transaction leaves the begin
snapshot untouched, and a subsequent transactional `getMulti` that succeeds
returns exactly the reads of the head store as it was when the transaction
began — so the transaction's own writes, and any head mutation after begin,
are invisible to it. -/
theorem txn_get_reads_begin_snapshot (d0 : DataStoreData) (xg : Bool)
    (ops : List TxnOp) (keys : List DSKey) (d1 : DataStoreData) (td1 : TxnState)
    (cbs : List (DSKey × Option String)) (td2 : TxnState)
    (res : List (Option PropertyMap))
    (happly : applyTxnOps d0 (mkTxn d0 xg) ops = some (d1, td1, cbs))
    (hget : txnGetMulti td1 keys = (td2, .ok res)) :
    td1.snap = d0.head ∧ res = snapReads d0.head keys := by
  have hsnap : td1.snap = d0.head :=
    applyTxnOps_snap ops d0 (mkTxn d0 xg) d1 td1 cbs happly
  refine ⟨hsnap, ?_⟩
  unfold txnGetMulti at hget
  cases hrec : txnRecordGets td1 keys with
  | mk tdr oe =>
    rw [hrec] at hget
    cases oe with
    | some e => exact absurd hget (by simp)
    | none =>
      have hs2 : tdr.snap = td1.snap := txnRecordGets_snap keys td1 tdr none hrec
      simp only [Prod.mk.injEq, Except.ok.injEq] at hget
      rw [← hget.2, hs2, hsnap]
      rfl

def kW7 : DSKey := ⟨"app", "n7", [("Kind", "", 1)]⟩

def headW7 : MemStore := [("ents:n7", [(kW7, [("A", [PropVal.int 1])])])]

def dW7 : DataStoreData :=
  { aid := "app", head := headW7, snap := some headW7, txnFakeRetry := 0,
    autoIndex := false, disableSpecialEntities := false }

def opsW7 : List TxnOp := [.put kW7 [("A", [PropVal.int 2])], .del kW7]

def keysW7 : List DSKey := [kW7]

def txnRunW7 : Option (DataStoreData × TxnState × List (DSKey × Option String)) :=
  applyTxnOps dW7 (mkTxn dW7 false) opsW7

def d1W7 : DataStoreData := (txnRunW7.map (fun t => t.1)).getD dW7

def td1W7 : TxnState := (txnRunW7.map (fun t => t.2.1)).getD (mkTxn dW7 false)

def cbsW7 : List (DSKey × Option String) := (txnRunW7.map (fun t => t.2.2)).getD []

def getRunW7 : TxnState × Except String (List (Option PropertyMap)) :=
  txnGetMulti td1W7 keysW7

def td2W7 : TxnState := getRunW7.1

def resW7 : List (Option PropertyMap) :=
  match getRunW7.2 with
  | .ok r => r
  | .error _ => []

theorem txn_get_reads_begin_snapshot_witness :
    td1W7.snap = dW7.head ∧ resW7 = snapReads dW7.head keysW7 :=
  txn_get_reads_begin_snapshot dW7 false opsW7 keysW7 d1W7 td1W7 cbsW7 td2W7 resW7
    (by decide) (by decide)

/-- A decode failure of a cached Data item: either the `NoSuchEntity`
sentinel or any other decoding error. -/
inductive DecodeErr
  | noSuchEntity
  | other
deriving DecidableEq, Repr

/-- A memcache item as seen by the dscache fetch planner: its flag word and
value bytes (the key is only used for logging and not carried). -/
structure CacheItem where
  flags : Nat
  value : List Nat
deriving DecidableEq, Repr

/-- Modelled from the spec: the dscache flag discriminator values
(`ItemHasData`, `ItemHasLock`) are declared outside the given sources; the
concrete numbers are immaterial, only their distinctness matters. -/
def ItemHasData : Nat := 1

def ItemHasLock : Nat := 2

/-- The dscache `facts`: `keepMeta` models `getMeta != nil`, and the
per-index meta getter (`getMeta.GetSingle i`) is represented by the index
itself. -/
structure CacheFacts where
  getKeys : List DSKey
  keepMeta : Bool
  lockItems : List (Option CacheItem)
  nonce : List Nat
deriving DecidableEq, Repr

structure FetchPlan where
  keepMeta : Bool
  idxMap : List Nat
  toGet : List DSKey
  toGetMeta : List Nat
  toSave : List (Option CacheItem)
  decoded : List (Option PropertyMap)
  lme : List (Option DecodeErr)
deriving DecidableEq, Repr

/-- `plan.add`: append an entry to be fetched from the underlying datastore;
`save = none` means "do not write back to memcache". -/
def planAdd (p : FetchPlan) (idx : Nat) (get : DSKey) (m : Nat)
    (save : Option CacheItem) : FetchPlan :=
  { p with
    idxMap := p.idxMap ++ [idx],
    toGet := p.toGet ++ [get],
    toSave := p.toSave ++ [save],
    toGetMeta := if p.keepMeta then p.toGetMeta ++ [m] else p.toGetMeta }

/-- The per-item loop of `makeFetchPlan`; `dec` is `decodeItemValue`
(defined outside the given sources, passed as a parameter). -/
def makeFetchPlanLoop (dec : List Nat → Except DecodeErr PropertyMap)
    (nonce : List Nat) (getKeys : List DSKey) :
    Nat → List (Option CacheItem) → FetchPlan → FetchPlan
  | _, [], p => p
  | i, itm :: rest, p =>
    let getKey := getKeys.getD i ⟨"", "", []⟩
    let p1 :=
      match itm with
      | none => planAdd p i getKey i none
      | some it =>
        if it.flags = ItemHasLock then
          (if it.value = nonce then planAdd p i getKey i (some it)
           else planAdd p i getKey i none)
        else if it.flags = ItemHasData then
          (match dec it.value with
           | .ok pm => { p with decoded := p.decoded.set i (some pm) }
           | .error .noSuchEntity => { p with lme := p.lme.set i (some .noSuchEntity) }
           | .error .other => planAdd p i getKey i none)
        else planAdd p i getKey i none
    makeFetchPlanLoop dec nonce getKeys (i + 1) rest p1

/-- `makeFetchPlan`: `decoded` and `lme` are preallocated at the input
length and filled in at the source index. -/
def makeFetchPlan (dec : List Nat → Except DecodeErr PropertyMap)
    (f : CacheFacts) : FetchPlan :=
  makeFetchPlanLoop dec f.nonce f.getKeys 0 f.lockItems
    { keepMeta := f.keepMeta, idxMap := [], toGet := [], toGetMeta := [],
      toSave := [], decoded := List.replicate f.lockItems.length none,
      lme := List.replicate f.lockItems.length none }

/-- The claim's per-key classification outcome. -/
inductive FetchAction
  | fetch (save : Option CacheItem)
  | served (pm : PropertyMap)
  | noSuch
deriving DecidableEq, Repr

/-- Second definition, following the claim's words: a nil item is fetched
with a nil save slot; a Lock item holding our nonce is fetched saving back
under the same item, any other Lock item fetched without saving; a Data item
is served when it decodes, marked no-such-entity on the sentinel, and
fetched without saving on any other decode error; any other flag is fetched
without saving. -/
def classifyItem (dec : List Nat → Except DecodeErr PropertyMap)
    (nonce : List Nat) (itm : Option CacheItem) : FetchAction :=
  match itm with
  | none => .fetch none
  | some it =>
    if it.flags = ItemHasLock then
      (if it.value = nonce then .fetch (some it) else .fetch none)
    else if it.flags = ItemHasData then
      (match dec it.value with
       | .ok pm => .served pm
       | .error .noSuchEntity => .noSuch
       | .error .other => .fetch none)
    else .fetch none

/-- The indices (from `i`) and save slots of the items the classification
sends to the underlying datastore, in order. -/
def fetchesFrom (dec : List Nat → Except DecodeErr PropertyMap) (nonce : List Nat)
    (i : Nat) : List (Option CacheItem) → List (Nat × Option CacheItem)
  | [] => []
  | itm :: rest =>
    match classifyItem dec nonce itm with
    | .fetch s => (i, s) :: fetchesFrom dec nonce (i + 1) rest
    | _ => fetchesFrom dec nonce (i + 1) rest

def decodedF (dec : List Nat → Except DecodeErr PropertyMap) (nonce : List Nat)
    (itm : Option CacheItem) : Option PropertyMap :=
  match classifyItem dec nonce itm with
  | .served pm => some pm
  | _ => none

def lmeF (dec : List Nat → Except DecodeErr PropertyMap) (nonce : List Nat)
    (itm : Option CacheItem) : Option DecodeErr :=
  match classifyItem dec nonce itm with
  | .noSuch => some .noSuchEntity
  | _ => none

/-- Positional writes into a preallocated vector, one item at a time. -/
def setUpd {β : Type} (f : Option CacheItem → Option β) :
    Nat → List (Option CacheItem) → List (Option β) → List (Option β)
  | _, [], base => base
  | i, itm :: rest, base =>
    setUpd f (i + 1) rest
      (match f itm with
       | some v => base.set i (some v)
       | none => base)

/-- The plan the claim describes, assembled from the classification. -/
def fetchPlanSpec (dec : List Nat → Except DecodeErr PropertyMap)
    (f : CacheFacts) : FetchPlan :=
  let fetches := fetchesFrom dec f.nonce 0 f.lockItems
  { keepMeta := f.keepMeta,
    idxMap := fetches.map (fun q => q.1),
    toGet := fetches.map (fun q => f.getKeys.getD q.1 ⟨"", "", []⟩),
    toGetMeta := if f.keepMeta then fetches.map (fun q => q.1) else [],
    toSave := fetches.map (fun q => q.2),
    decoded := f.lockItems.map (decodedF dec f.nonce),
    lme := f.lockItems.map (lmeF dec f.nonce) }

theorem data_ne_lock : (ItemHasData = ItemHasLock) = False := by
  simp [ItemHasData, ItemHasLock]

theorem set_append_len {α : Type} (pre : List α) (x : α) (tail : List α) (v : α) :
    (pre ++ x :: tail).set pre.length v = pre ++ v :: tail := by
  induction pre with
  | nil => rfl
  | cons a rest ih => simp [List.set, ih]

theorem setUpd_replicate {β : Type} (f : Option CacheItem → Option β)
    (items : List (Option CacheItem)) :
    ∀ (pre : List (Option β)),
      setUpd f pre.length items (pre ++ List.replicate items.length none) =
        pre ++ items.map f := by
  induction items with
  | nil => intro pre; simp [setUpd]
  | cons itm rest ih =>
    intro pre
    simp only [setUpd, List.length_cons, List.replicate_succ, List.map_cons]
    cases hf : f itm with
    | some v =>
      show setUpd f (pre.length + 1) rest
          ((pre ++ none :: List.replicate rest.length none).set pre.length (some v)) =
        pre ++ some v :: List.map f rest
      rw [set_append_len pre none (List.replicate rest.length none) (some v)]
      have := ih (pre ++ [some v])
      simp only [List.length_append, List.length_cons, List.length_nil] at this
      rw [show pre ++ some v :: List.replicate rest.length none =
        (pre ++ [some v]) ++ List.replicate rest.length none by simp]
      rw [this]
      simp
    | none =>
      show setUpd f (pre.length + 1) rest
          (pre ++ none :: List.replicate rest.length none) =
        pre ++ none :: List.map f rest
      have := ih (pre ++ [none])
      simp only [List.length_append, List.length_cons, List.length_nil] at this
      rw [show pre ++ (none : Option β) :: List.replicate rest.length none =
        (pre ++ [none]) ++ List.replicate rest.length none by simp]
      rw [this]
      simp

theorem makeFetchPlanLoop_eq (dec : List Nat → Except DecodeErr PropertyMap)
    (nonce : List Nat) (getKeys : List DSKey) (items : List (Option CacheItem)) :
    ∀ (i : Nat) (p : FetchPlan),
    makeFetchPlanLoop dec nonce getKeys i items p =
      { keepMeta := p.keepMeta,
        idxMap := p.idxMap ++ (fetchesFrom dec nonce i items).map (fun q => q.1),
        toGet := p.toGet ++ (fetchesFrom dec nonce i items).map
          (fun q => getKeys.getD q.1 ⟨"", "", []⟩),
        toGetMeta := if p.keepMeta
          then p.toGetMeta ++ (fetchesFrom dec nonce i items).map (fun q => q.1)
          else p.toGetMeta,
        toSave := p.toSave ++ (fetchesFrom dec nonce i items).map (fun q => q.2),
        decoded := setUpd (decodedF dec nonce) i items p.decoded,
        lme := setUpd (lmeF dec nonce) i items p.lme } := by
  induction items with
  | nil =>
    intro i p
    simp [makeFetchPlanLoop, fetchesFrom, setUpd]
  | cons itm rest ih =>
    intro i p
    simp only [makeFetchPlanLoop]
    rw [ih]
    by_cases hkm : p.keepMeta = true
    · cases itm with
      | none =>
        simp [classifyItem, fetchesFrom, setUpd, decodedF, lmeF, data_ne_lock, planAdd, hkm]
      | some it =>
        by_cases hlock : it.flags = ItemHasLock
        · by_cases hval : it.value = nonce
          · simp [classifyItem, fetchesFrom, setUpd, decodedF, lmeF, data_ne_lock, planAdd,
              hkm, hlock, hval]
          · simp [classifyItem, fetchesFrom, setUpd, decodedF, lmeF, data_ne_lock, planAdd,
              hkm, hlock, hval]
        · by_cases hdata : it.flags = ItemHasData
          · cases hdec : dec it.value with
            | ok pm =>
              simp [classifyItem, fetchesFrom, setUpd, decodedF, lmeF, data_ne_lock,
                hkm, hlock, hdata, hdec]
            | error de =>
              cases de <;>
                simp [classifyItem, fetchesFrom, setUpd, decodedF, lmeF, data_ne_lock, planAdd,
                  hkm, hlock, hdata, hdec]
          · simp [classifyItem, fetchesFrom, setUpd, decodedF, lmeF, data_ne_lock, planAdd,
              hkm, hlock, hdata]
    · cases itm with
      | none =>
        simp [classifyItem, fetchesFrom, setUpd, decodedF, lmeF, data_ne_lock, planAdd, hkm]
      | some it =>
        by_cases hlock : it.flags = ItemHasLock
        · by_cases hval : it.value = nonce
          · simp [classifyItem, fetchesFrom, setUpd, decodedF, lmeF, data_ne_lock, planAdd,
              hkm, hlock, hval]
          · simp [classifyItem, fetchesFrom, setUpd, decodedF, lmeF, data_ne_lock, planAdd,
              hkm, hlock, hval]
        · by_cases hdata : it.flags = ItemHasData
          · cases hdec : dec it.value with
            | ok pm =>
              simp [classifyItem, fetchesFrom, setUpd, decodedF, lmeF, data_ne_lock,
                hkm, hlock, hdata, hdec]
            | error de =>
              cases de <;>
                simp [classifyItem, fetchesFrom, setUpd, decodedF, lmeF, data_ne_lock, planAdd,
                  hkm, hlock, hdata, hdec]
          · simp [classifyItem, fetchesFrom, setUpd, decodedF, lmeF, data_ne_lock, planAdd,
              hkm, hlock, hdata]

def itemLockOurs : CacheItem := ⟨ItemHasLock, [7]⟩

def itemData : CacheItem := ⟨ItemHasData, [9]⟩

def itemLockOther : CacheItem := ⟨ItemHasLock, [8]⟩

def pmW5 : PropertyMap := [("B", [PropVal.int 5])]

def decW5 : List Nat → Except DecodeErr PropertyMap :=
  fun v => if v = [9] then .ok pmW5 else .error .other

def keysW5 : List DSKey :=
  [⟨"a", "n", [("K", "", 1)]⟩, ⟨"a", "n", [("K", "", 2)]⟩,
   ⟨"a", "n", [("K", "", 3)]⟩, ⟨"a", "n", [("K", "", 4)]⟩]

def fW5 : CacheFacts :=
  { getKeys := keysW5, keepMeta := false,
    lockItems := [some itemLockOurs, some itemData, none, some itemLockOther],
    nonce := [7] }

/-- C5: `makeFetchPlan` realizes exactly the claim's per-key classification
(`fetchPlanSpec`); in particular, on
`[Lock/ourNonce, Data/valid, nil, Lock/otherNonce]` it fetches the keys at
indices 0, 2, 3, saves back only under item 0, serves index 1 from cache,
and maps back via `idxMap = [0, 2, 3]` with no per-key error assigned. -/
theorem makeFetchPlan_classification (dec : List Nat → Except DecodeErr PropertyMap)
    (f : CacheFacts) :
    makeFetchPlan dec f = fetchPlanSpec dec f ∧
    (makeFetchPlan decW5 fW5).toGet =
      [keysW5.getD 0 ⟨"", "", []⟩, keysW5.getD 2 ⟨"", "", []⟩, keysW5.getD 3 ⟨"", "", []⟩] ∧
    (makeFetchPlan decW5 fW5).toSave = [some itemLockOurs, none, none] ∧
    (makeFetchPlan decW5 fW5).decoded = [none, some pmW5, none, none] ∧
    (makeFetchPlan decW5 fW5).lme = [none, none, none, none] ∧
    (makeFetchPlan decW5 fW5).idxMap = [0, 2, 3] := by
  refine ⟨?_, by decide, by decide, by decide, by decide, by decide⟩
  unfold makeFetchPlan fetchPlanSpec
  rw [makeFetchPlanLoop_eq]
  have hd := setUpd_replicate (decodedF dec f.nonce) f.lockItems ([] : List (Option PropertyMap))
  have hl := setUpd_replicate (lmeF dec f.nonce) f.lockItems ([] : List (Option DecodeErr))
  simp only [List.length_nil, List.nil_append] at hd hl
  simp [hd, hl]

/-! The query reducer (`reduce` in `impl/memory/datastore_query.go`) is not
among the given sources — only its tests are — so the definitions below are
modelled from the spec (sections 4.2-4.4), with the tests fixing the
concrete expectations.  Validation rules no claim exercises (kindless
queries, projections, `__key__`-filter checks) are omitted. -/

/-- Modelled from the spec: big-endian base-256 digits of a natural number
(empty for 0); fuel-structural so the kernel can evaluate it. -/
def natDigitsAux : Nat → Nat → List Nat
  | 0, _ => []
  | _ + 1, 0 => []
  | fuel + 1, n + 1 => natDigitsAux fuel ((n + 1) / 256) ++ [(n + 1) % 256]

def natDigits (n : Nat) : List Nat := natDigitsAux n n

/-- Modelled from the spec: an order-compatible, self-delimiting integer
encoding in the style of `cmpbin` — a length byte above 128 for
non-negatives, below 128 with complemented digits for negatives. -/
def encInt (i : Int) : List Nat :=
  if 0 ≤ i then
    let ds := natDigits i.toNat
    (128 + ds.length) :: ds
  else
    let ds := natDigits (-1 - i).toNat
    (127 - ds.length) :: ds.map (fun d => 255 - d)

/-- Modelled from the spec: length-prefixed string bytes. -/
def encStr (s : String) : List Nat :=
  s.length :: s.toList.map (fun c => c.toNat)

def encTok (t : PathTok) : List Nat := encStr t.1 ++ encStr t.2.1 ++ encInt t.2.2

/-- Modelled from the spec: key serialization includes AppID and Namespace,
then the path tokens. -/
def encKey (k : DSKey) : List Nat :=
  encStr k.appID ++ encStr k.nsp ++ k.path.length :: (k.path.map encTok).flatten

/-- Modelled from the spec: `serialize.ToBytes` of a property — a type tag
followed by the value encoding. -/
def encProp : PropVal → List Nat
  | .int i => 64 :: encInt i
  | .key k => 65 :: encKey k

/-- Modelled from the spec: `Increment` returns the lexicographically
smallest byte string strictly greater than its input. -/
def increment (b : List Nat) : List Nat := b ++ [0]

/-- Strict lexicographic order on byte strings (a proper prefix sorts
first). -/
def bytesLt : List Nat → List Nat → Bool
  | [], [] => false
  | [], _ :: _ => true
  | _ :: _, [] => false
  | a :: as, b :: bs => if a < b then true else if b < a then false else bytesLt as bs

/-- `ds.IndexColumn`. -/
structure IndexColumn where
  property : String
  descending : Bool
deriving DecidableEq, Repr

/-- Modelled from the spec: a cursor is either a blob produced by this
engine — a column list with the value for each column — or some foreign
`ds.Cursor` implementation (`sillyCursor` in the tests). -/
inductive Cursor
  | native (cols : List (IndexColumn × PropVal))
  | foreign (s : String)
deriving DecidableEq, Repr

inductive QueryErr
  | msg (s : String)
  | nullQuery
deriving DecidableEq, Repr

/-- Modelled from the spec: `FinalizedQuery` after normalization — `orders`
already carries the implicit trailing ascending `__key__`, and the
inequality bounds are `(value, inclusive?)` pairs on `ineqProp`. -/
structure FinalizedQuery where
  kind : String
  ancestor : Option DSKey
  eqFilters : List (String × List PropVal)
  ineqProp : Option String
  low : Option (PropVal × Bool)
  high : Option (PropVal × Bool)
  orders : List IndexColumn
  start : Option Cursor
  stop : Option Cursor
deriving DecidableEq, Repr

/-- Modelled from the spec: the reduction output — scan bounds as byte
prefixes (`stop = none` is an unbounded scan) and the suffix-column count. -/
structure ReducedQuery where
  aid : String
  nsp : String
  kind : String
  eqFilters : List (String × List PropVal)
  suffixFormat : List IndexColumn
  start : List Nat
  stop : Option (List Nat)
  numCols : Nat
deriving DecidableEq, Repr

/-- Modelled from the spec: cursor decoding — empty bytes or a column list
not terminating in `__key__` fail with "invalid cursor", a foreign cursor
type with "bad cursor type"; otherwise the column list and the concatenated
value encoding are returned. -/
def decodeCursor : Cursor → Except QueryErr (List IndexColumn × List Nat)
  | .foreign _ => .error (.msg "bad cursor type")
  | .native [] => .error (.msg "invalid cursor")
  | .native cols =>
    match cols.getLast? with
    | some (col, _) =>
      if col.property = "__key__" then
        .ok (cols.map (fun q => q.1), (cols.map (fun q => encProp q.2)).flatten)
      else .error (.msg "invalid cursor")
    | none => .error (.msg "invalid cursor")

/-- Modelled from the spec: equality-filter count plus order count plus
inequality-endpoint count. -/
def numComponents (fq : FinalizedQuery) : Nat :=
  (fq.eqFilters.map (fun p => p.2.length)).sum + fq.orders.length +
    (if fq.low.isSome then 1 else 0) + (if fq.high.isSome then 1 else 0)

/-- Modelled from the spec: the inclusive low bound as a byte prefix — `>= v`
is `encode(v)`, `> v` is `increment(encode(v))`. -/
def boundLow : Option (PropVal × Bool) → Option (List Nat)
  | none => none
  | some (v, incl) => some (if incl then encProp v else increment (encProp v))

/-- Modelled from the spec: the exclusive high bound as a byte prefix —
`< v` is `encode(v)`, `<= v` is `increment(encode(v))`. -/
def boundHigh : Option (PropVal × Bool) → Option (List Nat)
  | none => none
  | some (v, incl) => some (if incl then increment (encProp v) else encProp v)

/-- Modelled from the spec: a decoded cursor's columns must exactly match
the effective order set, else "start/end cursor is invalid". -/
def validateCursor (c : Option Cursor) (orders : List IndexColumn) (side : String) :
    Except QueryErr (Option (List Nat)) :=
  match c with
  | none => .ok none
  | some cur =>
    match decodeCursor cur with
    | .error e => .error e
    | .ok (cols, bs) =>
      if cols = orders then .ok (some bs)
      else .error (.msg (side ++ " cursor is invalid"))

/-- Modelled from the spec: the query reducer.  Order of checks: the
in-transaction ancestor requirement, the 100-component size limit,
impossible inequality bounds (`ErrNullQuery`), cursor decoding and
validation, clamping of cursors against the inequality bounds (the tighter
value wins on each side), and the final start >= end emptiness test. -/
def reduce (fq : FinalizedQuery) (aid ns : String) (isTxn : Bool) :
    Except QueryErr ReducedQuery :=
  if isTxn = true ∧ fq.ancestor = none then
    .error (.msg "queries within a transaction must include an Ancestor filter")
  else if numComponents fq > 100 then
    .error (.msg "query is too large")
  else
    let lowB := boundLow fq.low
    let highB := boundHigh fq.high
    if lowB.isSome ∧ highB.isSome ∧ ¬ bytesLt (lowB.getD []) (highB.getD []) then
      .error .nullQuery
    else
      match validateCursor fq.start fq.orders "start" with
      | .error e => .error e
      | .ok startCur =>
        match validateCursor fq.stop fq.orders "end" with
        | .error e => .error e
        | .ok endCur =>
          let startB :=
            match lowB, startCur with
            | some a, some b => if bytesLt a b then b else a
            | some a, none => a
            | none, some b => b
            | none, none => []
          let endB : Option (List Nat) :=
            match highB, endCur with
            | some a, some b => some (if bytesLt a b then a else b)
            | some a, none => some a
            | none, some b => some b
            | none, none => none
          match endB with
          | some e1 =>
            if ¬ bytesLt startB e1 then .error .nullQuery
            else .ok ⟨aid, ns, fq.kind, fq.eqFilters, fq.orders, startB, some e1,
              fq.orders.length⟩
          | none =>
            .ok ⟨aid, ns, fq.kind, fq.eqFilters, fq.orders, startB, none,
              fq.orders.length⟩

theorem bytesLt_self (bs : List Nat) : bytesLt bs bs = false := by
  induction bs with
  | nil => rfl
  | cons a rest ih => simp [bytesLt, ih]

theorem bytesLt_increment_left (bs : List Nat) : bytesLt (increment bs) bs = false := by
  induction bs with
  | nil => rfl
  | cons a rest ih => simpa [increment, bytesLt] using ih

theorem bytesLt_increment_right (bs : List Nat) : bytesLt bs (increment bs) = true := by
  induction bs with
  | nil => rfl
  | cons a rest ih => simpa [increment, bytesLt] using ih

/-- The finalized form of `nq().<lowOp>("bob", v).<highOp>("bob", v)`. -/
def ineqFq (low high : Option (PropVal × Bool)) : FinalizedQuery :=
  { kind := "Foo", ancestor := none, eqFilters := [], ineqProp := some "bob",
    low := low, high := high,
    orders := [⟨"bob", false⟩, ⟨"__key__", false⟩], start := none, stop := none }

def keySomething1 : DSKey := ⟨"dev~app", "ns", [("Something", "", 1)]⟩

def keySomething20 : DSKey := ⟨"dev~app", "ns", [("Something", "", 20)]⟩

/-- `Gt("Foo",3).Lt("Foo",10)` with a start cursor at Foo=200 and an end
cursor at Foo=1: after clamping, start >= end. -/
def fqCursorNull : FinalizedQuery :=
  { kind := "Foo", ancestor := none, eqFilters := [], ineqProp := some "Foo",
    low := some (.int 3, false), high := some (.int 10, false),
    orders := [⟨"Foo", false⟩, ⟨"__key__", false⟩],
    start := some (.native [(⟨"Foo", false⟩, .int 200), (⟨"__key__", false⟩, .key keySomething1)]),
    stop := some (.native [(⟨"Foo", false⟩, .int 1), (⟨"__key__", false⟩, .key keySomething20)]) }

/-- C3: for every integer bound value `v`, the overconstrained inequality
pairs `>= v along with < v`, `> v along with < v` and `> v along with <= v`
reduce to `ErrNullQuery`, while `>= v along with <= v` reduces successfully
to the single-point scan `[encode(v), increment(encode(v)))`; and the
unsatisfiable cursor-clamp query (start clamped past end) also reduces to
`ErrNullQuery`. -/
theorem reduce_null_query_cases (v : Int) :
    reduce (ineqFq (some (.int v, true)) (some (.int v, false))) "dev~app" "ns" false
      = .error .nullQuery ∧
    reduce (ineqFq (some (.int v, false)) (some (.int v, false))) "dev~app" "ns" false
      = .error .nullQuery ∧
    reduce (ineqFq (some (.int v, false)) (some (.int v, true))) "dev~app" "ns" false
      = .error .nullQuery ∧
    reduce (ineqFq (some (.int v, true)) (some (.int v, true))) "dev~app" "ns" false
      = .ok ⟨"dev~app", "ns", "Foo", [], [⟨"bob", false⟩, ⟨"__key__", false⟩],
          encProp (.int v), some (increment (encProp (.int v))), 2⟩ ∧
    reduce fqCursorNull "dev~app" "ns" false = .error .nullQuery := by
  refine ⟨?_, ?_, ?_, ?_, by decide⟩ <;>
    simp [reduce, ineqFq, numComponents, boundLow, boundHigh, validateCursor,
      bytesLt_self, bytesLt_increment_left, bytesLt_increment_right]

def fqC4 : FinalizedQuery :=
  { kind := "Foo", ancestor := none, eqFilters := [], ineqProp := some "Foo",
    low := some (.int 3, false), high := some (.int 10, false),
    orders := [⟨"Foo", false⟩, ⟨"__key__", false⟩],
    start := some (.native [(⟨"Foo", false⟩, .int 2), (⟨"__key__", false⟩, .key keySomething1)]),
    stop := some (.native [(⟨"Foo", false⟩, .int 20), (⟨"__key__", false⟩, .key keySomething20)]) }

/-- C4: `Gt("Foo",3).Lt("Foo",10)` with a start cursor at (Foo=2, Something/1)
and an end cursor at (Foo=20, Something/20) reduces to the plan whose start
prefix is `increment(encode(3))`, whose end prefix is `encode(10)` (both
cursors are clamped inward to the tighter inequality bound), whose order
columns are [Foo asc, __key__ asc], and whose suffix-column count is 2. -/
theorem reduce_cursor_clamp :
    reduce fqC4 "dev~app" "ns" false =
      .ok ⟨"dev~app", "ns", "Foo", [], [⟨"Foo", false⟩, ⟨"__key__", false⟩],
        increment (encProp (.int 3)), some (encProp (.int 10)), 2⟩ := by
  decide

def nqBase : FinalizedQuery :=
  { kind := "Foo", ancestor := none, eqFilters := [], ineqProp := none,
    low := none, high := none, orders := [⟨"__key__", false⟩],
    start := none, stop := none }

/-- The "bad cursors (empty)" test query. -/
def fqC6empty : FinalizedQuery := { nqBase with start := some (.native []) }

/-- The "bad cursors (no key)" test query. -/
def fqC6noKey : FinalizedQuery :=
  { nqBase with stop := some (.native [(⟨"Foo", false⟩, .int 100)]) }

/-- The "bad cursors (doesn't include ineq)" test query. -/
def fqC6ineq : FinalizedQuery :=
  { nqBase with
    ineqProp := some "Bob"
    low := some (.int 10, false)
    orders := [⟨"Bob", false⟩, ⟨"__key__", false⟩]
    start := some (.native [(⟨"Foo", false⟩, .int 100), (⟨"__key__", false⟩, .key keySomething1)]) }

/-- The "bad cursors (doesn't include all orders)" test query. -/
def fqC6orders : FinalizedQuery :=
  { nqBase with
    orders := [⟨"Luci", false⟩, ⟨"Charliene", false⟩, ⟨"__key__", false⟩]
    start := some (.native [(⟨"Luci", false⟩, .int 100), (⟨"__key__", false⟩, .key keySomething1)]) }

/-- The "cursor bad type" test query. -/
def fqC6silly : FinalizedQuery :=
  { nqBase with
    orders := [⟨"Luci", false⟩, ⟨"__key__", false⟩]
    stop := some (.foreign "I am a banana") }

/-- C6: cursor validation — empty cursor bytes and a cursor lacking the
terminating `__key__` column fail with "invalid cursor"; a cursor value not
produced by this engine fails with "bad cursor type"; and a cursor whose
column list does not exactly match the query's effective order set fails
with "start cursor is invalid" (cursor over [Foo, __key__] against an
inequality on Bob; cursor over [Luci, __key__] against orders
[Luci, Charliene, __key__]). -/
theorem reduce_cursor_validation :
    reduce fqC6empty "dev~app" "ns" false = .error (.msg "invalid cursor") ∧
    reduce fqC6noKey "dev~app" "ns" false = .error (.msg "invalid cursor") ∧
    reduce fqC6ineq "dev~app" "ns" false = .error (.msg "start cursor is invalid") ∧
    reduce fqC6orders "dev~app" "ns" false = .error (.msg "start cursor is invalid") ∧
    reduce fqC6silly "dev~app" "ns" false = .error (.msg "bad cursor type") := by
  refine ⟨by decide, by decide, by decide, by decide, by decide⟩

/-- C9: whenever the equality-filter count plus order count plus
inequality-endpoint count exceeds 100 (and the transaction-ancestor check
does not fire first), `reduce` fails with "query is too large". -/
theorem reduce_too_large (fq : FinalizedQuery) (aid ns : String) (isTxn : Bool)
    (hanc : ¬(isTxn = true ∧ fq.ancestor = none))
    (hnum : numComponents fq > 100) :
    reduce fq aid ns isTxn = .error (.msg "query is too large") := by
  simp only [reduce]
  rw [if_neg hanc, if_pos hnum]

/-- The finalized form of an ancestor query carrying 100 equality filters on
the property "something" (values 0..99), as in the oversized-query test. -/
def fqBig : FinalizedQuery :=
  { kind := "Foo", ancestor := some ⟨"dev~app", "ns", [("thing", "wat", 0)]⟩,
    eqFilters := [("something", (List.range 100).map (fun i => PropVal.int i))],
    ineqProp := none, low := none, high := none,
    orders := [⟨"__key__", false⟩], start := none, stop := none }

theorem reduce_too_large_witness :
    numComponents fqBig > 100 ∧
    reduce fqBig "dev~app" "ns" false = .error (.msg "query is too large") :=
  ⟨by decide, reduce_too_large fqBig "dev~app" "ns" false (by decide) (by decide)⟩

end Gae
